import Mathlib

/-
Verification development for the multi-objective network path-search engine
(five metaheuristics over a shared graph/cost model).

Shallow embedding conventions:
- node identifiers are naturals, attribute values are rationals (the Python
  code computes with floats; all arithmetic performed by the metrics layer is
  exact on rationals);
- the Python value float('inf') is modelled by the top element of WithTop;
- the scalar cost (which involves math.log) lives in WithTop Real;
- fallible operations (networkx shortest_path raising NetworkXNoPath) return
  Option;
- the process-wide random generator is modelled by an oracle of streams: every
  primitive draw (random.random, random.randint, random.choice, np.random
  draws) consumes one tick from the oracle.  A concrete oracle corresponds to
  one possible run of the program.
- per-iteration diagnostic traces (the history dictionaries) are not modelled;
  the embedded optimizers return the (best_path, best_cost) pair.
-/

namespace NetOpt

/-- An undirected edge of the network with its attributes
(network_generator.py assigns bandwidth, delay, reliability to each edge). -/
structure NEdge where
  a : ℕ
  b : ℕ
  bandwidth : ℚ
  delay : ℚ
  reliability : ℚ
deriving DecidableEq, Repr

/-- The graph model: node list (networkx G.nodes()), edge list (G.edges())
and the per-node attributes processing_delay and reliability. -/
structure Network where
  nodes : List ℕ
  edges : List NEdge
  procDelay : ℕ → ℚ
  nodeRel : ℕ → ℚ

/-- Undirected edge lookup: networkx `(u, v) in G.edges()` / `G.edges[u, v]`
is orientation-insensitive; the Python code additionally tries both
orientations explicitly. -/
def Network.findEdge (g : Network) (u v : ℕ) : Option NEdge :=
  g.edges.find? (fun e => (e.a == u && e.b == v) || (e.a == v && e.b == u))

/-- networkx G.has_edge(u, v). -/
def Network.hasEdge (g : Network) (u v : ℕ) : Bool :=
  (g.findEdge u v).isSome

/-- networkx list(G.neighbors(u)) in adjacency (edge-insertion) order. -/
def Network.nbrs (g : Network) (u : ℕ) : List ℕ :=
  g.edges.filterMap (fun e =>
    if e.a = u then some e.b else if e.b = u then some e.a else none)

/-- The consecutive pairs of a node sequence (the links a path traverses). -/
def consecPairs (l : List ℕ) : List (ℕ × ℕ) := l.zip l.tail

/-- Two undirected edges with the same endpoint pair (multi-edge witness). -/
def sameEnds (e1 e2 : NEdge) : Prop :=
  (e1.a = e2.a ∧ e1.b = e2.b) ∨ (e1.a = e2.b ∧ e1.b = e2.a)

instance : DecidableRel sameEnds := fun e1 e2 => by
  unfold sameEnds; infer_instance

/-- Well-formed network per the data model (section 3): bandwidth positive,
delays nonnegative, reliabilities in the half-open interval from 0 to 1,
no multi-edges and no self-loops. -/
structure WF (g : Network) : Prop where
  edge_bw : ∀ e ∈ g.edges, 0 < e.bandwidth
  edge_delay : ∀ e ∈ g.edges, 0 ≤ e.delay
  edge_rel : ∀ e ∈ g.edges, 0 < e.reliability ∧ e.reliability ≤ 1
  node_rel : ∀ n : ℕ, 0 < g.nodeRel n ∧ g.nodeRel n ≤ 1
  node_delay : ∀ n : ℕ, 0 ≤ g.procDelay n
  no_multi : g.edges.Pairwise (fun e1 e2 => ¬ sameEnds e1 e2)
  no_self : ∀ e ∈ g.edges, e.a ≠ e.b

/-- Result dictionary of NetworkGenerator.get_path_metrics.  The Python code
stores float('inf') in the delay/resource fields of the failure dictionaries;
the min_bandwidth key is absent from the missing-edge failure dictionary,
hence the Option. -/
structure RawMetrics where
  total_delay : WithTop ℚ
  total_reliability : ℚ
  resource_cost : WithTop ℚ
  min_bandwidth : Option (WithTop ℚ)
deriving DecidableEq

/-- get_path_metrics result for a path of length below 2
(network_generator.py lines 170-176). -/
def invalidMetricsShort : RawMetrics := ⟨⊤, 0, ⊤, some ((0 : ℚ) : WithTop ℚ)⟩

/-- get_path_metrics result when a consecutive pair is not an edge
(network_generator.py lines 211-217; no min_bandwidth key). -/
def invalidMetricsEdge : RawMetrics := ⟨⊤, 0, ⊤, none⟩

/-- The accumulation loop of NetworkGenerator.get_path_metrics
(network_generator.py lines 184-217): `first` tells whether `u` is the first
node of the path (idx 0); `u` is the node at the current index; `rest` the
nodes after it; `d`, `r`, `rc`, `mb` are the running total_delay,
total_reliability, resource_cost and min_bandwidth.  Processing delay is
added only for intermediate nodes (not the first node and not the last);
node reliability is multiplied in for every node; on a missing edge the
function returns the failure dictionary at once. -/
def metricsGo (g : Network) : Bool → ℕ → List ℕ → ℚ → ℚ → ℚ → WithTop ℚ → RawMetrics
  | _, u, [], d, r, rc, mb => ⟨(d : WithTop ℚ), r * g.nodeRel u, (rc : WithTop ℚ), some mb⟩
  | first, u, v :: tl, d, r, rc, mb =>
    let d1 := if first then d else d + g.procDelay u
    let r1 := r * g.nodeRel u
    match g.findEdge u v with
    | some e =>
        metricsGo g false v tl (d1 + e.delay) (r1 * e.reliability)
          (rc + 1000 / e.bandwidth) (min mb (e.bandwidth : WithTop ℚ))
    | none => invalidMetricsEdge

/-- NetworkGenerator.get_path_metrics (network_generator.py lines 160-224). -/
def get_path_metrics (g : Network) : List ℕ → RawMetrics
  | [] => invalidMetricsShort
  | [_] => invalidMetricsShort
  | u :: rest => metricsGo g true u rest 0 1 0 ⊤

/-- The weights dictionary passed to calculate_total_cost. -/
structure CostWeights where
  delay : ℚ
  reliability : ℚ
  resource : ℚ
deriving DecidableEq

/-- Embed a rational metric value (possibly infinite) into the reals used by
the scalar cost. -/
def coeM (x : WithTop ℚ) : WithTop ℝ := x.map (fun (q : ℚ) => (q : ℝ))

/-- The reliability_cost computation of NetworkGenerator.calculate_total_cost
(network_generator.py lines 241-247): -log(total_reliability) when the
latter is positive, +infinity otherwise (the log(0) guard). -/
noncomputable def reliabilityCostOf (m : RawMetrics) : WithTop ℝ :=
  if 0 < m.total_reliability
  then (((- Real.log ((m.total_reliability : ℚ) : ℝ)) : ℝ) : WithTop ℝ)
  else ⊤

/-- NetworkGenerator.calculate_total_cost (network_generator.py lines
226-255): the scalar cost is the weighted sum of total_delay,
reliability_cost and resource_cost. -/
noncomputable def calculate_total_cost (g : Network) (path : List ℕ) (w : CostWeights) : WithTop ℝ :=
  ((w.delay : ℝ) : WithTop ℝ) * coeM (get_path_metrics g path).total_delay
    + ((w.reliability : ℝ) : WithTop ℝ) * reliabilityCostOf (get_path_metrics g path)
    + ((w.resource : ℝ) : WithTop ℝ) * coeM (get_path_metrics g path).resource_cost

/-- Modelled from the spec (section 4.1): reliability cost as
`1 - total_reliability`.  No such computation exists in the source; this
definition follows the spec's words only to be compared with
`calculate_total_cost`. -/
noncomputable def reliabilityCostOneMinus (m : RawMetrics) : WithTop ℝ :=
  if 0 < m.total_reliability
  then (((1 - ((m.total_reliability : ℚ) : ℝ)) : ℝ) : WithTop ℝ)
  else ⊤

/-- Modelled from the spec (section 4.1): the cost variant whose reliability
component is `1 - total_reliability` instead of the `-log total_reliability`
used by the source.  Stated only for comparison with
`calculate_total_cost`; no such entry point exists in the source. -/
noncomputable def calcTotalCostOneMinusVariant (g : Network) (path : List ℕ) (w : CostWeights) : WithTop ℝ :=
  ((w.delay : ℝ) : WithTop ℝ) * coeM (get_path_metrics g path).total_delay
    + ((w.reliability : ℝ) : WithTop ℝ) * reliabilityCostOneMinus (get_path_metrics g path)
    + ((w.resource : ℝ) : WithTop ℝ) * coeM (get_path_metrics g path).resource_cost

/-- Structural validity checked by the metrics layer: length at least 2 and
every consecutive pair an edge of the graph. -/
def structOk (g : Network) (p : List ℕ) : Prop :=
  2 ≤ p.length ∧ ∀ q ∈ consecPairs p, g.hasEdge q.1 q.2 = true

instance (g : Network) (p : List ℕ) : Decidable (structOk g p) := by
  unfold structOk; infer_instance

/-- A valid Path per the data model (section 3): length at least 2, first
element the source, last the destination, no repeated node, every
consecutive pair an edge. -/
def validPath (g : Network) (s d : ℕ) (p : List ℕ) : Prop :=
  2 ≤ p.length ∧ p.head? = some s ∧ p.getLast? = some d ∧ p.Nodup ∧
    ∀ q ∈ consecPairs p, g.hasEdge q.1 q.2 = true

instance (g : Network) (s d : ℕ) (p : List ℕ) : Decidable (validPath g s d p) := by
  unfold validPath; infer_instance

/-- Edge delay along a present edge (0 as junk default for a missing one). -/
def edgeDelayOf (g : Network) (u v : ℕ) : ℚ :=
  ((g.findEdge u v).map NEdge.delay).getD 0

/-- Edge bandwidth of a present edge (0 as junk default for a missing one). -/
def edgeBandwidthOf (g : Network) (u v : ℕ) : ℚ :=
  ((g.findEdge u v).map NEdge.bandwidth).getD 0

/-- Sum of edge delays along a path, spec form (section 4.1). -/
def edgeDelaySum (g : Network) (p : List ℕ) : ℚ :=
  ((consecPairs p).map (fun q => edgeDelayOf g q.1 q.2)).sum

/-- Sum of processing delays of the intermediate nodes of a path, spec form
(section 4.1): only nodes strictly between the first and the last count. -/
def procDelaySum (g : Network) (p : List ℕ) : ℚ :=
  (((p.drop 1).dropLast).map g.procDelay).sum

/-- Sum of 1000 / bandwidth over the edges of a path, spec form. -/
def resourceSum (g : Network) (p : List ℕ) : ℚ :=
  ((consecPairs p).map (fun q => 1000 / edgeBandwidthOf g q.1 q.2)).sum

/-- Breadth-first search kernel for nx.shortest_path (unweighted): queue of
(node, reversed path to it), visit-marking on enqueue, fuel for termination.
Tie-breaking between equally short paths may differ from networkx; the
concrete runs below only rely on it where the answer is unambiguous
(s = d, or no path at all). -/
def bfsGo (g : Network) (d : ℕ) : ℕ → List (ℕ × List ℕ) → List ℕ → Option (List ℕ)
  | 0, _, _ => none
  | _ + 1, [], _ => none
  | fuel + 1, (u, pu) :: qs, visited =>
    if u = d then some pu.reverse
    else
      let fresh := (g.nbrs u).filter (fun n => !(visited.contains n))
      bfsGo g d fuel (qs ++ fresh.map (fun n => (n, n :: pu))) (visited ++ fresh)

/-- nx.shortest_path(graph, s, d) for the unweighted graphs used throughout;
returns none where networkx raises NetworkXNoPath. -/
def shortestPath (g : Network) (s d : ℕ) : Option (List ℕ) :=
  bfsGo g d (2 * (g.nodes.length + g.edges.length) + 2) [(s, [s])] [s]

/-- Order-preserving removal of duplicate nodes keeping the first occurrence
(the seen-set loops of the SA / PSO / GA repairs). -/
def dedupKeepFirst (l : List ℕ) : List ℕ :=
  l.foldl (fun acc n => if n ∈ acc then acc else acc ++ [n]) []

/-- Loop removal of TabuSearch._repair_path (tabusearch.py lines 119-131):
on meeting an already-seen node the clean path is rolled back to that node's
first occurrence. -/
def dedupRollback (l : List ℕ) : List ℕ :=
  l.foldl (fun clean n =>
    if n ∈ clean then clean.take (clean.indexOf n + 1) else clean ++ [n]) []

/-- Oracle for the process-wide random generator: stream of random.random()
draws (as exact rationals in [0,1)), of integer draws backing
random.randint / random.choice / np.random.choice, and of gaussian draws
backing np.random.randn.  Each primitive call consumes one tick. -/
structure RandOracle where
  unif : ℕ → ℚ
  int : ℕ → ℕ
  gauss : ℕ → ℝ

/-- random.randint(a, b) (both ends inclusive), driven by the oracle's
integer stream at tick t; the draw is folded into the requested range. -/
def randintE (o : RandOracle) (t a b : ℕ) : ℕ := a + o.int t % (b - a + 1)

/-- The `_calculate_cost` helper shared verbatim by TabuSearch,
SimulatedAnnealing and ParticleSwarmOptimization: +infinity when no network
generator is set, otherwise the generator's calculate_total_cost. -/
noncomputable def calcCostVia (netGen : Option Network) (w : CostWeights) (path : List ℕ) : WithTop ℝ :=
  match netGen with
  | none => ⊤
  | some ng => calculate_total_cost ng path w

/-- Connectivity fix of TabuSearch._repair_path (tabusearch.py lines
134-155): `acc` is the final_path built so far, `u` its last element; a gap
is bridged by a shortest path, and when no bridge exists the code tries one
final bridge from `u` to the destination and returns (possibly invalid). -/
def connectFixTS (g : Network) (d : ℕ) : List ℕ → ℕ → List ℕ → List ℕ
  | acc, _, [] => acc
  | acc, u, v :: rest =>
    if g.hasEdge u v then connectFixTS g d (acc ++ [v]) v rest
    else
      match shortestPath g u v with
      | some bridge => connectFixTS g d (acc ++ bridge.drop 1) v rest
      | none =>
        match shortestPath g u d with
        | some endBridge => acc ++ endBridge.drop 1
        | none => acc

/-- TabuSearch._repair_path (tabusearch.py lines 110-155): force endpoints,
remove loops by rollback, then fix connectivity. -/
def tabuRepair (g : Network) (s d : ℕ) (path : List ℕ) : List ℕ :=
  if path = [] then path
  else
    let p1 := if path.head? = some s then path else s :: path
    let p2 := if p1.getLast? = some d then p1 else p1 ++ [d]
    match dedupRollback p2 with
    | [] => []
    | h :: t => connectFixTS g d [h] h t

/-- TabuSearch._generate_neighbor (tabusearch.py lines 64-108): one random
operator (remove / insert / replace-segment / no-op) chosen by a uniform
draw, followed by repair.  Returns the neighbor and the next oracle tick. -/
def tabuGenNeighbor (g : Network) (s d : ℕ) (o : RandOracle) (t : ℕ) (cur : List ℕ) : List ℕ × ℕ :=
  if cur.length < 2 then (cur, t)
  else
    let op := o.unif t
    let t1 := t + 1
    if op < 3/10 ∧ 2 < cur.length then
      let idx := randintE o t1 1 (cur.length - 2)
      (tabuRepair g s d (cur.eraseIdx idx), t1 + 1)
    else if op < 6/10 then
      let idx := randintE o t1 1 (cur.length - 1)
      let prev := cur.getD (idx - 1) 0
      let cands := (g.nbrs prev).filter (fun n => !(cur.contains n))
      if cands = [] then (tabuRepair g s d cur, t1 + 1)
      else
        let nn := cands.getD (o.int (t1 + 1) % cands.length) 0
        (tabuRepair g s d (cur.insertIdx idx nn), t1 + 2)
    else if op < 8/10 ∧ 3 < cur.length then
      let i1 := randintE o t1 1 (cur.length - 3)
      let i2 := randintE o (t1 + 1) (i1 + 1) (cur.length - 2)
      match shortestPath g (cur.getD i1 0) (cur.getD i2 0) with
      | some sub =>
          (tabuRepair g s d (cur.take (i1 + 1) ++ (sub.drop 1).dropLast ++ cur.drop i2), t1 + 2)
      | none => (tabuRepair g s d cur, t1 + 2)
    else (tabuRepair g s d cur, t1)

/-- The tabu list of TabuSearch: a dictionary from exact path sequences to
the expiry value iteration + tenure; modelled as an association list where
the most recent binding shadows older ones. -/
def tabuRecord (tl : List (List ℕ × ℕ)) (path : List ℕ) (iteration tenure : ℕ) : List (List ℕ × ℕ) :=
  (path, iteration + tenure) :: tl

/-- The tabu eligibility test of TabuSearch.optimize (tabusearch.py lines
188-193): a candidate is tabu when its recorded expiry value is strictly
greater than the current iteration index. -/
def tabuCheck (tl : List (List ℕ × ℕ)) (path : List ℕ) (iteration : ℕ) : Bool :=
  match tl.lookup path with
  | some expiry => decide (iteration < expiry)
  | none => false

/-- Running state of the neighborhood scan of one Tabu Search iteration. -/
structure TSCand where
  tick : ℕ
  bestNbr : Option (List ℕ)
  bestNbrCost : WithTop ℝ

/-- One candidate of the neighborhood scan (tabusearch.py lines 179-202):
generate a neighbor, skip it when empty, apply the tabu test with the
aspiration override, and keep it when it beats the best candidate so far. -/
noncomputable def tabuCandStep (g : Network) (s d : ℕ) (netGen : Option Network) (w : CostWeights)
    (tl : List (List ℕ × ℕ)) (bestCost : WithTop ℝ) (iter : ℕ) (cur : List ℕ) (o : RandOracle)
    (st : TSCand) : TSCand :=
  let nbrT := tabuGenNeighbor g s d o st.tick cur
  if nbrT.1 = [] then ⟨nbrT.2, st.bestNbr, st.bestNbrCost⟩
  else
    let c := calcCostVia netGen w nbrT.1
    let isTabu := tabuCheck tl nbrT.1 iter
    let isTabu := if isTabu = true ∧ c < bestCost then false else isTabu
    if isTabu = false ∧ c < st.bestNbrCost then ⟨nbrT.2, some nbrT.1, c⟩
    else ⟨nbrT.2, st.bestNbr, st.bestNbrCost⟩

/-- The full neighborhood scan of one Tabu Search iteration. -/
noncomputable def tabuCandLoop (g : Network) (s d : ℕ) (netGen : Option Network) (w : CostWeights)
    (tl : List (List ℕ × ℕ)) (bestCost : WithTop ℝ) (iter : ℕ) (cur : List ℕ) (o : RandOracle)
    (nbSize : ℕ) (st0 : TSCand) : TSCand :=
  (List.range nbSize).foldl (fun st _ => tabuCandStep g s d netGen w tl bestCost iter cur o st) st0

/-- Running state of TabuSearch.optimize across iterations. -/
structure TSState where
  tick : ℕ
  cur : List ℕ
  curCost : WithTop ℝ
  best : List ℕ
  bestCost : WithTop ℝ
  tl : List (List ℕ × ℕ)

/-- One iteration of TabuSearch.optimize (tabusearch.py lines 173-220):
scan the neighborhood, adopt the best eligible candidate as the current
solution, record it tabu for tenure further iterations, and update the
best-ever solution on strict improvement. -/
noncomputable def tabuIter (g : Network) (s d : ℕ) (netGen : Option Network) (w : CostWeights)
    (tenure nbSize : ℕ) (o : RandOracle) (st : TSState) (iter : ℕ) : TSState :=
  let res := tabuCandLoop g s d netGen w st.tl st.bestCost iter st.cur o nbSize ⟨st.tick, none, ⊤⟩
  match res.bestNbr with
  | some p =>
    let tl1 := tabuRecord st.tl p iter tenure
    if res.bestNbrCost < st.bestCost then ⟨res.tick, p, res.bestNbrCost, p, res.bestNbrCost, tl1⟩
    else ⟨res.tick, p, res.bestNbrCost, st.best, st.bestCost, tl1⟩
  | none => ⟨res.tick, st.cur, st.curCost, st.best, st.bestCost, st.tl⟩

/-- TabuSearch.optimize (tabusearch.py lines 157-222): returns ([], 0.0)
when no network generator is set; otherwise starts from the hop-shortest
path ([source, destination] when none exists) and runs the tabu loop,
returning the best path and its cost. -/
noncomputable def tabuOptimize (g : Network) (s d : ℕ) (w : CostWeights)
    (tenure numIter nbSize : ℕ) (netGen : Option Network) (o : RandOracle) : List ℕ × WithTop ℝ :=
  match netGen with
  | none => ([], 0)
  | some _ =>
    let init := (shortestPath g s d).getD [s, d]
    let c0 := calcCostVia netGen w init
    let fin := (List.range numIter).foldl
      (fun st i => tabuIter g s d netGen w tenure nbSize o st i) ⟨0, init, c0, init, c0, []⟩
    (fin.best, fin.bestCost)

/-- Connectivity loop shared verbatim by SimulatedAnnealing._repair_path
(simulated_annealing.py lines 137-156) and
ParticleSwarmOptimization._repair_path (particle_swarm.py lines 97-116):
equal consecutive nodes are skipped, gaps are bridged by a shortest path,
and an unbridgeable target node is skipped. -/
def connectSkip (g : Network) : List ℕ → ℕ → List ℕ → List ℕ
  | acc, _, [] => acc
  | acc, u, v :: rest =>
    if u = v then connectSkip g acc u rest
    else if g.hasEdge u v then connectSkip g (acc ++ [v]) v rest
    else
      match shortestPath g u v with
      | some bridge => connectSkip g (acc ++ bridge.drop 1) v rest
      | none => connectSkip g acc u rest

/-- Final destination fix shared by the SA and PSO repairs
(simulated_annealing.py lines 158-167, particle_swarm.py lines 118-127):
bridge the last node to the destination, falling back to the global
shortest path and then to [source, destination]. -/
def finishToDest (g : Network) (s d : ℕ) (r : List ℕ) : List ℕ :=
  if r.getLast? = some d then r
  else
    match shortestPath g (r.getLast?.getD 0) d with
    | some bridge => r ++ bridge.drop 1
    | none => (shortestPath g s d).getD [s, d]

/-- SimulatedAnnealing._repair_path (simulated_annealing.py lines 115-169). -/
def saRepair (g : Network) (s d : ℕ) (path : List ℕ) : List ℕ :=
  if path.length < 2 then (shortestPath g s d).getD [s, d]
  else
    let p1 := if path.head? = some s then path else s :: path
    let p2 := if p1.getLast? = some d then p1 else p1 ++ [d]
    match dedupKeepFirst p2 with
    | [] => []
    | h :: t => finishToDest g s d (connectSkip g [h] h t)

/-- SimulatedAnnealing._get_neighbor (simulated_annealing.py lines 63-113):
one of four local moves chosen by randint(0,3), followed by repair. -/
def saGenNeighbor (g : Network) (s d : ℕ) (o : RandOracle) (t : ℕ) (cur : List ℕ) : List ℕ × ℕ :=
  if cur.length < 2 then (cur, t)
  else
    let m := o.int t % 4
    let t1 := t + 1
    if m = 0 ∧ 2 < cur.length then
      let idx := randintE o t1 1 (cur.length - 2)
      (saRepair g s d (cur.eraseIdx idx), t1 + 1)
    else if m = 1 then
      let idx := randintE o t1 1 cur.length
      let prev := cur.getD (idx - 1) 0
      let cands := (g.nbrs prev).filter (fun n => !((cur.take idx).contains n))
      if cands = [] then (saRepair g s d cur, t1 + 1)
      else
        let nn := cands.getD (o.int (t1 + 1) % cands.length) 0
        (saRepair g s d (cur.insertIdx idx nn), t1 + 2)
    else if m = 2 ∧ 3 < cur.length then
      let i1 := randintE o t1 1 (cur.length - 3)
      let i2 := randintE o (t1 + 1) (i1 + 2) (cur.length - 1)
      match shortestPath g (cur.getD (i1 - 1) 0) (cur.getD i2 0) with
      | some seg => (saRepair g s d (cur.take i1 ++ seg.drop 1), t1 + 2)
      | none => (saRepair g s d cur, t1 + 2)
    else
      if 3 < cur.length then
        let i1 := randintE o t1 1 (cur.length - 2)
        let i2 := randintE o (t1 + 1) 1 (cur.length - 2)
        if i1 ≠ i2 then
          let x := cur.getD i1 0
          let y := cur.getD i2 0
          (saRepair g s d ((cur.set i1 y).set i2 x), t1 + 2)
        else (saRepair g s d cur, t1 + 2)
      else (saRepair g s d cur, t1)

/-- SimulatedAnnealing._acceptance_probability (simulated_annealing.py lines
171-180): 1 for an improving move, 0 at nonpositive temperature, otherwise
exp(-(new-current)/T); a non-improving infinite new cost is rejected (the
exp branch underflows to probability 0, matching the float behaviour). -/
noncomputable def acceptProb (currentCost newCost : WithTop ℝ) (temperature : ℝ) : ℝ :=
  if newCost < currentCost then 1
  else if temperature ≤ 0 then 0
  else if newCost = ⊤ ∨ currentCost = ⊤ then 0
  else Real.exp (-(newCost.untop' 0 - currentCost.untop' 0) / temperature)

/-- Running state of SimulatedAnnealing.optimize. -/
structure SAState where
  tick : ℕ
  cur : List ℕ
  curCost : WithTop ℝ
  best : List ℕ
  bestCost : WithTop ℝ
  temperature : ℝ

/-- One inner move of SimulatedAnnealing.optimize (simulated_annealing.py
lines 212-232): generate a neighbor, accept it when the uniform draw falls
below the acceptance probability, and update the best-ever solution on
strict improvement. -/
noncomputable def saInnerStep (g : Network) (s d : ℕ) (netGen : Option Network) (w : CostWeights)
    (o : RandOracle) (st : SAState) : SAState :=
  let nbrT := saGenNeighbor g s d o st.tick st.cur
  let newCost := calcCostVia netGen w nbrT.1
  let prob := acceptProb st.curCost newCost st.temperature
  let t2 := nbrT.2 + 1
  if ((o.unif nbrT.2 : ℚ) : ℝ) < prob then
    if newCost < st.bestCost then ⟨t2, nbrT.1, newCost, nbrT.1, newCost, st.temperature⟩
    else ⟨t2, nbrT.1, newCost, st.best, st.bestCost, st.temperature⟩
  else ⟨t2, st.cur, st.curCost, st.best, st.bestCost, st.temperature⟩

/-- One temperature step of SimulatedAnnealing.optimize: the inner loop
followed by geometric cooling (simulated_annealing.py lines 211-235). -/
noncomputable def saTempStep (g : Network) (s d : ℕ) (netGen : Option Network) (w : CostWeights)
    (o : RandOracle) (iterPerTemp : ℕ) (cooling : ℝ) (st : SAState) : SAState :=
  let st1 := (List.range iterPerTemp).foldl (fun acc _ => saInnerStep g s d netGen w o acc) st
  ⟨st1.tick, st1.cur, st1.curCost, st1.best, st1.bestCost, st1.temperature * cooling⟩

/-- SimulatedAnnealing.optimize (simulated_annealing.py lines 182-248):
returns ([], +infinity) when no network generator is set, otherwise runs
the annealing schedule from the hop-shortest path. -/
noncomputable def saOptimize (g : Network) (s d : ℕ) (w : CostWeights) (initTemp cooling : ℝ)
    (numIter iterPerTemp : ℕ) (netGen : Option Network) (o : RandOracle) : List ℕ × WithTop ℝ :=
  match netGen with
  | none => ([], ⊤)
  | some _ =>
    let init := (shortestPath g s d).getD [s, d]
    let c0 := calcCostVia netGen w init
    let fin := (List.range numIter).foldl
      (fun st _ => saTempStep g s d netGen w o iterPerTemp cooling st) ⟨0, init, c0, init, c0, initTemp⟩
    (fin.best, fin.bestCost)

/-- ParticleSwarmOptimization._path_to_position (particle_swarm.py lines
52-61): node ids at the leading coordinates, zero padding up to the node
count. -/
def pathToPosition (g : Network) (path : List ℕ) : List ℝ :=
  let m := g.nodes.length
  ((path.take m).map (fun (n : ℕ) => (n : ℝ))) ++ List.replicate (m - (path.take m).length) 0

/-- ParticleSwarmOptimization._repair_path (particle_swarm.py lines
89-129); identical to the SA connectivity fix without the endpoint/dedup
preprocessing (which position decoding performs). -/
def psoRepair (g : Network) (s d : ℕ) (path : List ℕ) : List ℕ :=
  if path.length < 2 then (shortestPath g s d).getD [s, d]
  else
    match path with
    | [] => []
    | h :: t => finishToDest g s d (connectSkip g [h] h t)

/-- ParticleSwarmOptimization._position_to_path (particle_swarm.py lines
63-87): drop zero coordinates, round each remaining coordinate and reduce
it modulo the node count (Python round-half-to-even and Lean round-half-up
differ only on exact half-integers), map to node ids, force endpoints,
deduplicate, repair. -/
noncomputable def positionToPath (g : Network) (s d : ℕ) (pos : List ℝ) : List ℕ :=
  let nl := g.nodes
  let idxs : List ℤ :=
    (pos.filter (fun p => decide (p ≠ 0))).map (fun p => round p % (nl.length : ℤ))
  let pathNodes : List ℕ :=
    idxs.filterMap (fun n => if 0 ≤ n ∧ n < (nl.length : ℤ) then nl.get? n.toNat else none)
  let p1 :=
    match pathNodes with
    | [] => [s]
    | h :: t => if h = s then h :: t else s :: h :: t
  let p2 := if p1.getLast? = some d then p1 else p1 ++ [d]
  psoRepair g s d (dedupKeepFirst p2)

/-- ParticleSwarmOptimization._generate_random_path (particle_swarm.py
lines 131-149): the shortest path with 0-3 random detour insertions,
repaired; [source, destination] when no shortest path exists. -/
def psoGenRandomPath (g : Network) (s d : ℕ) (o : RandOracle) (t : ℕ) : List ℕ × ℕ :=
  match shortestPath g s d with
  | none => ([s, d], t)
  | some sp0 =>
    let k := o.int t % 4
    let t1 := t + 1
    let res := (List.range k).foldl (fun (st : List ℕ × ℕ) _ =>
      let p := st.1
      let tk := st.2
      if 2 ≤ p.length then
        let pos := randintE o tk 1 (p.length - 1)
        let current := p.getD (pos - 1) 0
        let cands := (g.nbrs current).filter (fun n => !(p.contains n))
        if cands = [] then (p, tk + 1)
        else (p.insertIdx pos (cands.getD (o.int (tk + 1) % cands.length) 0), tk + 2)
      else (p, tk)) (sp0, t1)
    (psoRepair g s d res.1, res.2)

/-- np.argmin over costs: index of the first occurrence of the minimum. -/
noncomputable def argminIdx (l : List (WithTop ℝ)) : ℕ :=
  (l.enum.foldl (fun best cur => if cur.2 < best.2 then cur else best) (0, ⊤)).1

/-- Componentwise vector sum. -/
def vAdd (x y : List ℝ) : List ℝ := List.zipWith (fun a b => a + b) x y

/-- Componentwise vector difference. -/
def vSub (x y : List ℝ) : List ℝ := List.zipWith (fun a b => a - b) x y

/-- Scalar multiple of a vector. -/
def vScale (c : ℝ) (x : List ℝ) : List ℝ := x.map (fun a => c * a)

/-- Running state of ParticleSwarmOptimization.optimize: particle
positions, velocities, personal bests and the global best. -/
structure PSOState where
  tick : ℕ
  positions : List (List ℝ)
  velocities : List (List ℝ)
  pbPositions : List (List ℝ)
  pbCosts : List (WithTop ℝ)
  gbPosition : List ℝ
  gbCost : WithTop ℝ

/-- Velocity/position update and best bookkeeping for one particle
(particle_swarm.py lines 196-221). -/
noncomputable def psoParticleStep (g : Network) (s d : ℕ) (netGen : Option Network) (w : CostWeights)
    (o : RandOracle) (wIn c1 c2 : ℝ) (st : PSOState) (i : ℕ) : PSOState :=
  let r1 := ((o.unif st.tick : ℚ) : ℝ)
  let r2 := ((o.unif (st.tick + 1) : ℚ) : ℝ)
  let xi := st.positions.getD i []
  let vi := st.velocities.getD i []
  let pbi := st.pbPositions.getD i []
  let cog := vScale (c1 * r1) (vSub pbi xi)
  let soc := vScale (c2 * r2) (vSub st.gbPosition xi)
  let vnew := vAdd (vAdd (vScale wIn vi) cog) soc
  let xnew := vAdd xi vnew
  let path := positionToPath g s d xnew
  let cost := calcCostVia netGen w path
  let st1 := { st with
    tick := st.tick + 2
    positions := st.positions.set i xnew
    velocities := st.velocities.set i vnew }
  if cost < st1.pbCosts.getD i ⊤ then
    let st2 := { st1 with
      pbCosts := st1.pbCosts.set i cost
      pbPositions := st1.pbPositions.set i xnew }
    if cost < st2.gbCost then { st2 with gbCost := cost, gbPosition := xnew }
    else st2
  else st1

/-- Swarm initialization (particle_swarm.py lines 168-187): one random
path per particle, encoded to a position, with a small gaussian velocity;
then the global best is the personal best of minimum cost. -/
noncomputable def psoInit (g : Network) (s d : ℕ) (netGen : Option Network) (w : CostWeights)
    (o : RandOracle) (numParticles : ℕ) : PSOState :=
  let st := (List.range numParticles).foldl (fun (st : PSOState) _ =>
    let pr := psoGenRandomPath g s d o st.tick
    let pos := pathToPosition g pr.1
    let m := pos.length
    let vel := (List.range m).map (fun j => o.gauss (pr.2 + j) * (1 / 10))
    { st with
      tick := pr.2 + m
      positions := st.positions ++ [pos]
      velocities := st.velocities ++ [vel]
      pbPositions := st.pbPositions ++ [pos]
      pbCosts := st.pbCosts ++ [calcCostVia netGen w pr.1] }) ⟨0, [], [], [], [], [], ⊤⟩
  let idx := argminIdx st.pbCosts
  { st with gbPosition := st.pbPositions.getD idx [], gbCost := st.pbCosts.getD idx ⊤ }

/-- ParticleSwarmOptimization.optimize (particle_swarm.py lines 158-238):
returns ([], +infinity) when no network generator is set, otherwise runs
the swarm and decodes the global-best position into the returned path. -/
noncomputable def psoOptimize (g : Network) (s d : ℕ) (w : CostWeights) (wIn c1 c2 : ℝ)
    (numParticles numIter : ℕ) (netGen : Option Network) (o : RandOracle) : List ℕ × WithTop ℝ :=
  match netGen with
  | none => ([], ⊤)
  | some _ =>
    let st0 := psoInit g s d netGen w o numParticles
    let fin := (List.range numIter).foldl
      (fun st _ => (List.range numParticles).foldl
        (fun st2 i => psoParticleStep g s d netGen w o wIn c1 c2 st2 i) st) st0
    (positionToPath g s d fin.gbPosition, fin.gbCost)

/-- AntColonyOptimization._initialize_pheromones (ant_colony.py lines
57-61): both orientations of every edge start at pheromone 1.0. -/
noncomputable def pherInit (g : Network) : List ((ℕ × ℕ) × ℝ) :=
  g.edges.foldr (fun e acc => ((e.a, e.b), (1 : ℝ)) :: ((e.b, e.a), (1 : ℝ)) :: acc) []

/-- Evaporation sweep of AntColonyOptimization._update_pheromones
(ant_colony.py lines 176-178): every stored value is multiplied by
1 - evaporation_rate. -/
noncomputable def evaporatePher (rate : ℝ) (ph : List ((ℕ × ℕ) × ℝ)) : List ((ℕ × ℕ) × ℝ) :=
  ph.map (fun kv => (kv.1, kv.2 * (1 - rate)))

/-- Deposit on one directed pheromone key (ant_colony.py lines 193-196);
a missing key is left untouched. -/
noncomputable def depositOnKey (ph : List ((ℕ × ℕ) × ℝ)) (k : ℕ × ℕ) (delta : ℝ) :
    List ((ℕ × ℕ) × ℝ) :=
  ph.map (fun kv => if kv.1 = k then (kv.1, kv.2 + delta) else kv)

/-- Deposit pass for one ant (ant_colony.py lines 181-196): empty paths and
infinite costs are skipped, the deposit is Q / cost (0 for a nonpositive
cost), and both orientations of every traversed edge receive it. -/
noncomputable def depositPath (Q : ℝ) (ph : List ((ℕ × ℕ) × ℝ)) (path : List ℕ)
    (cost : WithTop ℝ) : List ((ℕ × ℕ) × ℝ) :=
  if path = [] ∨ cost = ⊤ then ph
  else
    let c := cost.untop' 0
    let delta := if 0 < c then Q / c else 0
    (consecPairs path).foldl
      (fun acc uv => depositOnKey (depositOnKey acc uv delta) (uv.2, uv.1) delta) ph

/-- AntColonyOptimization._update_pheromones (ant_colony.py lines 174-196):
one full evaporation sweep followed by the deposit passes of all ants. -/
noncomputable def updatePheromones (rate Q : ℝ) (ph : List ((ℕ × ℕ) × ℝ))
    (pcs : List (List ℕ × WithTop ℝ)) : List ((ℕ × ℕ) × ℝ) :=
  pcs.foldl (fun acc pc => depositPath Q acc pc.1 pc.2) (evaporatePher rate ph)

/-- Pheromone read of _select_next_node (ant_colony.py lines 90-95): try
the directed key, then its reverse, with 0.1 as the dictionary default. -/
noncomputable def pherGet (ph : List ((ℕ × ℕ) × ℝ)) (u v : ℕ) : ℝ :=
  match ph.lookup (u, v) with
  | some x => x
  | none =>
    match ph.lookup (v, u) with
    | some x => x
    | none => 1 / 10

/-- AntColonyOptimization._get_heuristic (ant_colony.py lines 63-79):
bandwidth / (delay + 1) for a present edge, 0 otherwise. -/
def acoHeuristic (g : Network) (u v : ℕ) : ℚ :=
  match g.findEdge u v with
  | none => 0
  | some e => e.bandwidth / (e.delay + 1)

/-- Selection probabilities of _select_next_node (ant_colony.py lines
87-113): pheromone^alpha * heuristic^beta per candidate, normalized
(uniform fallback when the total is nonpositive). -/
noncomputable def acoProbs (g : Network) (ph : List ((ℕ × ℕ) × ℝ)) (alpha beta : ℝ)
    (cur : ℕ) (cands : List ℕ) : List ℝ :=
  let raw := cands.map (fun cand =>
    let tau := pherGet ph cur cand
    let eta := ((acoHeuristic g cur cand : ℚ) : ℝ)
    if 0 < eta then tau ^ alpha * eta ^ beta else tau ^ alpha)
  let total := raw.sum
  if 0 < total then raw.map (fun p => p / total)
  else cands.map (fun _ => 1 / (cands.length : ℝ))

/-- Inverse-CDF selection backing np.random.choice(candidates, p=probs):
walk the probability list with a uniform draw. -/
noncomputable def pickByCum : List ℕ → List ℝ → ℝ → ℕ → ℕ
  | [], _, _, dflt => dflt
  | c :: _, [], _, _ => c
  | c :: cs, p :: ps, u, _ => if u < p then c else pickByCum cs ps (u - p) c

/-- Walk loop of AntColonyOptimization._construct_path (ant_colony.py lines
129-161): fuel is the remaining step budget (max_steps = 2 * node count);
the result is none where the Python code returns [] (ant abandoned). -/
noncomputable def acoConstructGo (g : Network) (d : ℕ) (ph : List ((ℕ × ℕ) × ℝ))
    (alpha beta : ℝ) (o : RandOracle) : ℕ → ℕ → List ℕ → List ℕ → ℕ → Option (List ℕ) × ℕ
  | 0, _, path, _, t => (some path, t)
  | fuel + 1, current, path, visited, t =>
    if current = d then (some path, t)
    else
      let neighbors := g.nbrs current
      let t1 := if neighbors.contains d then t + 1 else t
      if neighbors.contains d ∧ o.unif t < 8/10 then (some (path ++ [d]), t1)
      else
        let candidates := neighbors.filter (fun n => !(visited.contains n))
        if candidates = [] then
          match shortestPath g current d with
          | some rp => (some (path ++ rp.drop 1), t1)
          | none => (none, t1)
        else
          let probs := acoProbs g ph alpha beta current candidates
          let nxt := pickByCum candidates probs ((o.unif t1 : ℚ) : ℝ) 0
          acoConstructGo g d ph alpha beta o fuel nxt (path ++ [nxt]) (visited ++ [nxt]) (t1 + 1)

/-- AntColonyOptimization._construct_path (ant_colony.py lines 120-172):
the walk loop followed by the final bridge to the destination; [] where the
ant is abandoned. -/
noncomputable def acoConstruct (g : Network) (s d : ℕ) (ph : List ((ℕ × ℕ) × ℝ))
    (alpha beta : ℝ) (o : RandOracle) (t : ℕ) : List ℕ × ℕ :=
  match acoConstructGo g d ph alpha beta o (2 * g.nodes.length) s [s] [s] t with
  | (none, t1) => ([], t1)
  | (some path, t1) =>
    if path.getLast? = some d then (path, t1)
    else
      match shortestPath g (path.getLast?.getD 0) d with
      | some bridge => (path ++ bridge.drop 1, t1)
      | none => ([], t1)

/-- Accumulator of one ACO iteration: oracle tick, the (path, cost) pairs
of the successful ants, and the best-ever solution. -/
structure ACOAnts where
  tick : ℕ
  pairs : List (List ℕ × WithTop ℝ)
  best : Option (List ℕ)
  bestCost : WithTop ℝ

/-- One ant of AntColonyOptimization.optimize (ant_colony.py lines
222-234): construct a path, and when it is nonempty record it with its cost
and update the best-ever solution on strict improvement. -/
noncomputable def acoAntStep (g : Network) (s d : ℕ) (ng : Network) (w : CostWeights)
    (alpha beta : ℝ) (o : RandOracle) (ph : List ((ℕ × ℕ) × ℝ)) (acc : ACOAnts) : ACOAnts :=
  let pt := acoConstruct g s d ph alpha beta o acc.tick
  if pt.1 = [] then { acc with tick := pt.2 }
  else
    let cost := calculate_total_cost ng pt.1 w
    let acc1 := { acc with tick := pt.2, pairs := acc.pairs ++ [(pt.1, cost)] }
    if cost < acc1.bestCost then { acc1 with best := some pt.1, bestCost := cost } else acc1

/-- Running state of AntColonyOptimization.optimize. -/
structure ACOState where
  tick : ℕ
  ph : List ((ℕ × ℕ) × ℝ)
  best : Option (List ℕ)
  bestCost : WithTop ℝ

/-- One iteration of AntColonyOptimization.optimize (ant_colony.py lines
217-246): all ants walk, then pheromones are updated when at least one ant
produced a path. -/
noncomputable def acoIter (g : Network) (s d : ℕ) (ng : Network) (w : CostWeights)
    (alpha beta rate Q : ℝ) (numAnts : ℕ) (o : RandOracle) (st : ACOState) : ACOState :=
  let r := (List.range numAnts).foldl
    (fun acc _ => acoAntStep g s d ng w alpha beta o st.ph acc) ⟨st.tick, [], st.best, st.bestCost⟩
  let ph1 := if r.pairs = [] then st.ph else updatePheromones rate Q st.ph r.pairs
  ⟨r.tick, ph1, r.best, r.bestCost⟩

/-- AntColonyOptimization.optimize (ant_colony.py lines 198-248): returns
([], +infinity) when no network generator is set; otherwise runs the colony
from the initial pheromone map; best_path stays None when no ant ever
produced a path. -/
noncomputable def acoOptimize (g : Network) (s d : ℕ) (w : CostWeights) (alpha beta rate Q : ℝ)
    (numAnts numIter : ℕ) (netGen : Option Network) (o : RandOracle) :
    Option (List ℕ) × WithTop ℝ :=
  match netGen with
  | none => (some [], ⊤)
  | some ng =>
    let fin := (List.range numIter).foldl
      (fun st _ => acoIter g s d ng w alpha beta rate Q numAnts o st) ⟨0, pherInit g, none, ⊤⟩
    (fin.best, fin.bestCost)

/-- Concrete test network: nodes 0, 1, 2 with the single edge 0-1
(bandwidth 1000, delay 1, reliability 1); node 2 is isolated, so
destination 2 is unreachable from source 0. -/
def G2 : Network :=
  ⟨[0, 1, 2], [⟨0, 1, 1000, 1, 1⟩], fun _ => 1, fun _ => 1⟩

/-- Concrete network for the reliability-cost comparison: one edge 0-1 with
delay 0 and reliability 1, node 0 of reliability 1/2, all else 1. -/
def G1 : Network :=
  ⟨[0, 1], [⟨0, 1, 1000, 0, 1⟩], fun _ => 0, fun n => if n = 0 then 1/2 else 1⟩

/-- Concrete network for the bandwidth monotonicity witness: single edge
0-1 of bandwidth 100. -/
def G3 : Network := ⟨[0, 1], [⟨0, 1, 100, 1, 1⟩], fun _ => 1, fun _ => 1⟩

/-- G3 with the bandwidth of edge 0-1 raised to 200, all else fixed. -/
def G3bw : Network := ⟨[0, 1], [⟨0, 1, 200, 1, 1⟩], fun _ => 1, fun _ => 1⟩

/-- Unit weight triple. -/
def W1 : CostWeights := ⟨1, 1, 1⟩

/-- Weight triple selecting only the reliability component. -/
def WRel : CostWeights := ⟨0, 1, 0⟩

/-- Concrete random oracle: every uniform draw is 1/2 (which sends
TabuSearch._generate_neighbor into its insert branch), every integer draw
is 0. -/
def O1 : RandOracle := ⟨fun _ => 1/2, fun _ => 0, fun _ => 0⟩

end NetOpt

namespace NetOpt

example : shortestPath G2 0 2 = none := by decide

example : shortestPath G2 0 1 = some [0, 1] := by decide

example : get_path_metrics G2 [0, 1]
    = ⟨((1 : ℚ) : WithTop ℚ), 1, ((1 : ℚ) : WithTop ℚ), some ((1000 : ℚ) : WithTop ℚ)⟩ := by
  simp only [get_path_metrics, metricsGo, G2, Network.findEdge, List.find?]
  norm_num

example : get_path_metrics G2 [0, 2] = invalidMetricsEdge := by decide

example : tabuGenNeighbor G2 0 2 O1 0 [0, 2] = ([0, 1], 3) := by
  unfold tabuGenNeighbor
  norm_num [O1]
  decide

example : get_path_metrics G1 [0, 1]
    = ⟨((0 : ℚ) : WithTop ℚ), 1/2, ((1 : ℚ) : WithTop ℚ), some ((1000 : ℚ) : WithTop ℚ)⟩ := by
  simp only [get_path_metrics, metricsGo, G1, Network.findEdge, List.find?]
  norm_num

lemma consecPairs_cons (u v : ℕ) (tl : List ℕ) :
    consecPairs (u :: v :: tl) = (u, v) :: consecPairs (v :: tl) := rfl

lemma consecPairs_single (u : ℕ) : consecPairs [u] = [] := rfl

lemma hasEdge_iff_findEdge (g : Network) (u v : ℕ) :
    g.hasEdge u v = true ↔ ∃ e, g.findEdge u v = some e := by
  simp [Network.hasEdge, Option.isSome_iff_exists]

lemma mem_of_findEdge (g : Network) {u v : ℕ} {e : NEdge} (he : g.findEdge u v = some e) :
    e ∈ g.edges := by
  unfold Network.findEdge at he
  exact List.mem_of_find?_eq_some he

lemma edgeDelayOf_eq (g : Network) {u v : ℕ} {e : NEdge} (he : g.findEdge u v = some e) :
    edgeDelayOf g u v = e.delay := by
  simp [edgeDelayOf, he]

lemma edgeBandwidthOf_eq (g : Network) {u v : ℕ} {e : NEdge} (he : g.findEdge u v = some e) :
    edgeBandwidthOf g u v = e.bandwidth := by
  simp [edgeBandwidthOf, he]

lemma edgeDelaySum_cons (g : Network) (u v : ℕ) (tl : List ℕ) :
    edgeDelaySum g (u :: v :: tl) = edgeDelayOf g u v + edgeDelaySum g (v :: tl) := by
  simp [edgeDelaySum, consecPairs_cons]

lemma edgeDelaySum_single (g : Network) (u : ℕ) : edgeDelaySum g [u] = 0 := rfl

lemma resourceSum_cons (g : Network) (u v : ℕ) (tl : List ℕ) :
    resourceSum g (u :: v :: tl) = 1000 / edgeBandwidthOf g u v + resourceSum g (v :: tl) := by
  simp [resourceSum, consecPairs_cons]

lemma resourceSum_single (g : Network) (u : ℕ) : resourceSum g [u] = 0 := rfl

lemma metricsGo_delay (g : Network) (rest : List ℕ) :
    ∀ (u : ℕ) (d r rc : ℚ) (mb : WithTop ℚ),
      (∀ q ∈ consecPairs (u :: rest), g.hasEdge q.1 q.2 = true) →
      (metricsGo g false u rest d r rc mb).total_delay
        = ((d + edgeDelaySum g (u :: rest) + ((u :: rest).dropLast.map g.procDelay).sum : ℚ) :
            WithTop ℚ) := by
  induction rest with
  | nil =>
      intro u d r rc mb _
      simp [metricsGo, edgeDelaySum_single]
  | cons v tl ih =>
      intro u d r rc mb h
      have hedge : g.hasEdge u v = true := h (u, v) (by rw [consecPairs_cons]; exact List.mem_cons_self _ _)
      obtain ⟨e, he⟩ := (hasEdge_iff_findEdge g u v).mp hedge
      have htail : ∀ q ∈ consecPairs (v :: tl), g.hasEdge q.1 q.2 = true := fun q hq =>
        h q (by rw [consecPairs_cons]; exact List.mem_cons_of_mem _ hq)
      simp only [metricsGo, he, if_neg (Bool.false_ne_true)]
      rw [ih v _ _ _ _ htail, edgeDelaySum_cons, edgeDelayOf_eq g he]
      rw [WithTop.coe_eq_coe]
      simp only [List.dropLast, List.map_cons, List.sum_cons]
      ring

lemma metricsGo_resource (g : Network) (rest : List ℕ) :
    ∀ (u : ℕ) (d r rc : ℚ) (mb : WithTop ℚ),
      (∀ q ∈ consecPairs (u :: rest), g.hasEdge q.1 q.2 = true) →
      (metricsGo g false u rest d r rc mb).resource_cost
        = ((rc + resourceSum g (u :: rest) : ℚ) : WithTop ℚ) := by
  induction rest with
  | nil =>
      intro u d r rc mb _
      simp [metricsGo, resourceSum_single]
  | cons v tl ih =>
      intro u d r rc mb h
      have hedge : g.hasEdge u v = true := h (u, v) (by rw [consecPairs_cons]; exact List.mem_cons_self _ _)
      obtain ⟨e, he⟩ := (hasEdge_iff_findEdge g u v).mp hedge
      have htail : ∀ q ∈ consecPairs (v :: tl), g.hasEdge q.1 q.2 = true := fun q hq =>
        h q (by rw [consecPairs_cons]; exact List.mem_cons_of_mem _ hq)
      simp only [metricsGo, he]
      rw [ih v _ _ _ _ htail, resourceSum_cons, edgeBandwidthOf_eq g he]
      rw [WithTop.coe_eq_coe]
      ring

lemma metricsGo_rel_pos (g : Network) (hWF : WF g) (rest : List ℕ) :
    ∀ (first : Bool) (u : ℕ) (d r rc : ℚ) (mb : WithTop ℚ), 0 < r →
      (∀ q ∈ consecPairs (u :: rest), g.hasEdge q.1 q.2 = true) →
      0 < (metricsGo g first u rest d r rc mb).total_reliability := by
  induction rest with
  | nil =>
      intro first u d r rc mb hr _
      simpa [metricsGo] using mul_pos hr (hWF.node_rel u).1
  | cons v tl ih =>
      intro first u d r rc mb hr h
      have hedge : g.hasEdge u v = true := h (u, v) (by rw [consecPairs_cons]; exact List.mem_cons_self _ _)
      obtain ⟨e, he⟩ := (hasEdge_iff_findEdge g u v).mp hedge
      have htail : ∀ q ∈ consecPairs (v :: tl), g.hasEdge q.1 q.2 = true := fun q hq =>
        h q (by rw [consecPairs_cons]; exact List.mem_cons_of_mem _ hq)
      simp only [metricsGo, he]
      exact ih false v _ _ _ _
        (mul_pos (mul_pos hr (hWF.node_rel u).1) (hWF.edge_rel e (mem_of_findEdge g he)).1) htail

lemma metricsGo_invalid (g : Network) (rest : List ℕ) :
    ∀ (first : Bool) (u : ℕ) (d r rc : ℚ) (mb : WithTop ℚ),
      (∃ q ∈ consecPairs (u :: rest), ¬ g.hasEdge q.1 q.2 = true) →
      metricsGo g first u rest d r rc mb = invalidMetricsEdge := by
  induction rest with
  | nil =>
      intro first u d r rc mb hex
      obtain ⟨q, hq, _⟩ := hex
      simp [consecPairs_single] at hq
  | cons v tl ih =>
      intro first u d r rc mb hex
      obtain ⟨q, hq, hne⟩ := hex
      rw [consecPairs_cons] at hq
      rcases List.mem_cons.mp hq with hq1 | hq2
      · have hne2 : ¬ g.hasEdge u v = true := by rw [hq1] at hne; simpa using hne
        have hnone : g.findEdge u v = none := by
          cases hfe : g.findEdge u v with
          | none => rfl
          | some e => exact absurd (by simp [Network.hasEdge, hfe]) hne2
        simp [metricsGo, hnone]
      · cases hfe : g.findEdge u v with
        | none => simp [metricsGo, hfe]
        | some e =>
            simp only [metricsGo, hfe]
            exact ih false v _ _ _ _ ⟨q, hq2, hne⟩

lemma structOk_shape {g : Network} {p : List ℕ} (h : structOk g p) :
    ∃ u v tl, p = u :: v :: tl := by
  obtain ⟨hlen, _⟩ := h
  match p with
  | [] => simp at hlen
  | [x] => simp at hlen
  | u :: v :: tl => exact ⟨u, v, tl, rfl⟩

lemma metrics_delay_eq (g : Network) (p : List ℕ) (h : structOk g p) :
    (get_path_metrics g p).total_delay
      = ((edgeDelaySum g p + procDelaySum g p : ℚ) : WithTop ℚ) := by
  obtain ⟨u, v, tl, rfl⟩ := structOk_shape h
  obtain ⟨-, hpairs⟩ := h
  have hedge : g.hasEdge u v = true := hpairs (u, v) (by rw [consecPairs_cons]; exact List.mem_cons_self _ _)
  obtain ⟨e, he⟩ := (hasEdge_iff_findEdge g u v).mp hedge
  have htail : ∀ q ∈ consecPairs (v :: tl), g.hasEdge q.1 q.2 = true := fun q hq =>
    hpairs q (by rw [consecPairs_cons]; exact List.mem_cons_of_mem _ hq)
  simp only [get_path_metrics, metricsGo, he, if_pos rfl]
  rw [metricsGo_delay g tl v _ _ _ _ htail, edgeDelaySum_cons, edgeDelayOf_eq g he]
  rw [WithTop.coe_eq_coe]
  simp only [procDelaySum, List.drop_succ_cons, List.drop_zero, if_true]
  ring

lemma metrics_resource_eq (g : Network) (p : List ℕ) (h : structOk g p) :
    (get_path_metrics g p).resource_cost = ((resourceSum g p : ℚ) : WithTop ℚ) := by
  obtain ⟨u, v, tl, rfl⟩ := structOk_shape h
  obtain ⟨-, hpairs⟩ := h
  have hedge : g.hasEdge u v = true := hpairs (u, v) (by rw [consecPairs_cons]; exact List.mem_cons_self _ _)
  obtain ⟨e, he⟩ := (hasEdge_iff_findEdge g u v).mp hedge
  have htail : ∀ q ∈ consecPairs (v :: tl), g.hasEdge q.1 q.2 = true := fun q hq =>
    hpairs q (by rw [consecPairs_cons]; exact List.mem_cons_of_mem _ hq)
  simp only [get_path_metrics, metricsGo, he, if_pos rfl]
  rw [metricsGo_resource g tl v _ _ _ _ htail, resourceSum_cons, edgeBandwidthOf_eq g he]
  rw [WithTop.coe_eq_coe]
  ring

lemma metrics_rel_pos (g : Network) (p : List ℕ) (hWF : WF g) (h : structOk g p) :
    0 < (get_path_metrics g p).total_reliability := by
  obtain ⟨u, v, tl, rfl⟩ := structOk_shape h
  obtain ⟨-, hpairs⟩ := h
  exact metricsGo_rel_pos g hWF (v :: tl) true u 0 1 0 ⊤ one_pos hpairs

lemma metrics_invalid (g : Network) (p : List ℕ) (h : ¬ structOk g p) :
    (get_path_metrics g p).total_delay = ⊤ ∧ (get_path_metrics g p).total_reliability = 0 ∧
      (get_path_metrics g p).resource_cost = ⊤ := by
  match p with
  | [] => simp [get_path_metrics, invalidMetricsShort]
  | [x] => simp [get_path_metrics, invalidMetricsShort]
  | u :: v :: tl =>
      have hlen : 2 ≤ (u :: v :: tl).length := by simp
      have hnall : ¬ ∀ q ∈ consecPairs (u :: v :: tl), g.hasEdge q.1 q.2 = true := fun hall =>
        h ⟨hlen, hall⟩
      push_neg at hnall
      obtain ⟨q, hq, hne⟩ := hnall
      have : get_path_metrics g (u :: v :: tl) = invalidMetricsEdge := by
        simp only [get_path_metrics]
        exact metricsGo_invalid g (v :: tl) true u 0 1 0 ⊤ ⟨q, hq, by simpa using hne⟩
      rw [this]
      simp [invalidMetricsEdge]

lemma coeM_coe (q : ℚ) : coeM ((q : ℚ) : WithTop ℚ) = ((q : ℝ) : WithTop ℝ) := rfl

lemma coeM_top : coeM ⊤ = ⊤ := rfl

lemma cost_ne_top_of_structOk (g : Network) (w : CostWeights) (p : List ℕ)
    (hWF : WF g) (h : structOk g p) : calculate_total_cost g p w ≠ ⊤ := by
  have hrel := metrics_rel_pos g p hWF h
  unfold calculate_total_cost reliabilityCostOf
  rw [metrics_delay_eq g p h, metrics_resource_eq g p h, if_pos hrel, coeM_coe, coeM_coe]
  rw [← WithTop.coe_mul, ← WithTop.coe_mul, ← WithTop.coe_mul, ← WithTop.coe_add,
    ← WithTop.coe_add]
  exact WithTop.coe_ne_top

lemma cost_top_of_not_structOk (g : Network) (w : CostWeights) (p : List ℕ)
    (hwr : 0 < w.reliability) (h : ¬ structOk g p) : calculate_total_cost g p w = ⊤ := by
  obtain ⟨hd, hr, hrc⟩ := metrics_invalid g p h
  unfold calculate_total_cost reliabilityCostOf
  rw [hd, hr, hrc, if_neg (lt_irrefl 0), coeM_top]
  have h2 : ((w.reliability : ℝ) : WithTop ℝ) * ⊤ = ⊤ := by
    apply WithTop.mul_top
    exact_mod_cast hwr.ne'
  rw [h2, WithTop.add_top, WithTop.top_add]

lemma WF_G2 : WF G2 := by
  refine ⟨?_, ?_, ?_, ?_, ?_, ?_, ?_⟩
  · intro e he; rw [G2, List.mem_singleton] at he; subst he; norm_num
  · intro e he; rw [G2, List.mem_singleton] at he; subst he; norm_num
  · intro e he; rw [G2, List.mem_singleton] at he; subst he; norm_num
  · intro n; constructor <;> norm_num [G2]
  · intro n; norm_num [G2]
  · exact List.pairwise_singleton _ _
  · intro e he; rw [G2, List.mem_singleton] at he; subst he; norm_num

lemma WF_G1 : WF G1 := by
  refine ⟨?_, ?_, ?_, ?_, ?_, ?_, ?_⟩
  · intro e he; rw [G1, List.mem_singleton] at he; subst he; norm_num
  · intro e he; rw [G1, List.mem_singleton] at he; subst he; norm_num
  · intro e he; rw [G1, List.mem_singleton] at he; subst he; norm_num
  · intro n
    show 0 < (if n = 0 then (1 : ℚ)/2 else 1) ∧ (if n = 0 then (1 : ℚ)/2 else 1) ≤ 1
    split <;> norm_num
  · intro n; norm_num [G1]
  · exact List.pairwise_singleton _ _
  · intro e he; rw [G1, List.mem_singleton] at he; subst he; norm_num

/-- Claim C2, amended: for a well-formed graph and strictly positive
weights, the scalar cost is +infinity exactly when the path fails the
structural checks the metrics layer performs (length below 2, or a
consecutive pair that is not an edge); wrong endpoints or repeated nodes
are not detected. -/
theorem C2_cost_top_iff_structural (g : Network) (w : CostWeights) (hWF : WF g)
    (h1 : 0 < w.delay) (h2 : 0 < w.reliability) (h3 : 0 < w.resource) (p : List ℕ) :
    calculate_total_cost g p w = ⊤ ↔ ¬ structOk g p := by
  constructor
  · intro htop
    by_contra hok
    exact cost_ne_top_of_structOk g w p hWF hok htop
  · intro h
    exact cost_top_of_not_structOk g w p h2 h

/-- Witness for C2_cost_top_iff_structural at a concrete instance. -/
theorem C2_cost_top_iff_structural_witness :
    WF G2 ∧ ((0 : ℚ) < W1.delay ∧ (0 : ℚ) < W1.reliability ∧ (0 : ℚ) < W1.resource) ∧
      (calculate_total_cost G2 [0, 1] W1 = ⊤ ↔ ¬ structOk G2 [0, 1]) :=
  ⟨WF_G2, ⟨by norm_num [W1], by norm_num [W1], by norm_num [W1]⟩,
    C2_cost_top_iff_structural G2 W1 WF_G2 (by norm_num [W1]) (by norm_num [W1])
      (by norm_num [W1]) [0, 1]⟩

/-- Counterexample to claim C2 as stated: the walk 0-1-0-1 repeats nodes,
so it is invalid per the data model, yet its cost is finite — the cost
entry point does not check simplicity. -/
theorem C2_counterexample :
    ¬ (calculate_total_cost G2 [0, 1, 0, 1] W1 = ⊤ ↔ ¬ validPath G2 0 1 [0, 1, 0, 1]) := by
  intro hiff
  have hnv : ¬ validPath G2 0 1 [0, 1, 0, 1] := by decide
  exact cost_ne_top_of_structOk G2 W1 [0, 1, 0, 1] WF_G2 (by decide) (hiff.mpr hnv)

/-- Claim C6: for a valid path, total_delay is the sum of the edge delays
along the path plus the processing delays of the intermediate nodes only. -/
theorem C6_total_delay_decomposition (g : Network) (s d : ℕ) (p : List ℕ)
    (h : validPath g s d p) :
    (get_path_metrics g p).total_delay
      = ((edgeDelaySum g p + procDelaySum g p : ℚ) : WithTop ℚ) :=
  metrics_delay_eq g p ⟨h.1, h.2.2.2.2⟩

/-- Witness for C6_total_delay_decomposition at a concrete instance. -/
theorem C6_total_delay_decomposition_witness :
    validPath G2 0 1 [0, 1] ∧
      (get_path_metrics G2 [0, 1]).total_delay
        = ((edgeDelaySum G2 [0, 1] + procDelaySum G2 [0, 1] : ℚ) : WithTop ℚ) :=
  ⟨by decide, C6_total_delay_decomposition G2 0 1 [0, 1] (by decide)⟩

/-- Claim C3, amended: on a valid path the reliability component used by
calculate_total_cost is -log(total_reliability) (the positive branch of
the log(0) guard), so the weighted cost includes the term
w_reliability * (-log r). -/
theorem C3_reliability_component_neg_log (g : Network) (s d : ℕ) (w : CostWeights)
    (p : List ℕ) (hWF : WF g) (h : validPath g s d p) :
    0 < (get_path_metrics g p).total_reliability ∧
    calculate_total_cost g p w
      = ((w.delay : ℝ) : WithTop ℝ) * coeM (get_path_metrics g p).total_delay
        + ((w.reliability : ℝ) : WithTop ℝ)
            * (((- Real.log (((get_path_metrics g p).total_reliability : ℚ) : ℝ)) : ℝ) :
                WithTop ℝ)
        + ((w.resource : ℝ) : WithTop ℝ) * coeM (get_path_metrics g p).resource_cost := by
  have hpos := metrics_rel_pos g p hWF ⟨h.1, h.2.2.2.2⟩
  refine ⟨hpos, ?_⟩
  unfold calculate_total_cost reliabilityCostOf
  rw [if_pos hpos]

/-- Witness for C3_reliability_component_neg_log at a concrete instance. -/
theorem C3_reliability_component_neg_log_witness :
    WF G1 ∧ validPath G1 0 1 [0, 1] ∧ 0 < (get_path_metrics G1 [0, 1]).total_reliability :=
  ⟨WF_G1, by decide, (C3_reliability_component_neg_log G1 0 1 W1 [0, 1] WF_G1 (by decide)).1⟩

lemma metrics_G1_eval : get_path_metrics G1 [0, 1]
    = ⟨((0 : ℚ) : WithTop ℚ), 1/2, ((1 : ℚ) : WithTop ℚ), some ((1000 : ℚ) : WithTop ℚ)⟩ := by
  simp only [get_path_metrics, metricsGo, G1, Network.findEdge, List.find?]
  norm_num

/-- Counterexample to claim C3 as stated: on the network G1 the valid path
[0, 1] has total reliability 1/2; the source's cost entry point charges
-log(1/2) = log 2 for it while the spec's 1 - reliability formula gives
1/2, and log 2 is not 1/2. -/
theorem C3_counterexample :
    calculate_total_cost G1 [0, 1] WRel ≠ calcTotalCostOneMinusVariant G1 [0, 1] WRel := by
  have hcode : calculate_total_cost G1 [0, 1] WRel = ((Real.log 2 : ℝ) : WithTop ℝ) := by
    unfold calculate_total_cost reliabilityCostOf
    simp only [metrics_G1_eval, coeM_coe]
    rw [if_pos (show (0 : ℚ) < 1/2 by norm_num)]
    rw [show ((1/2 : ℚ) : ℝ) = (2 : ℝ)⁻¹ by norm_num, Real.log_inv, neg_neg]
    rw [← WithTop.coe_mul, ← WithTop.coe_mul, ← WithTop.coe_mul, ← WithTop.coe_add,
      ← WithTop.coe_add, WithTop.coe_eq_coe]
    norm_num [WRel]
  have hspec : calcTotalCostOneMinusVariant G1 [0, 1] WRel = ((1/2 : ℝ) : WithTop ℝ) := by
    unfold calcTotalCostOneMinusVariant reliabilityCostOneMinus
    simp only [metrics_G1_eval, coeM_coe]
    rw [if_pos (show (0 : ℚ) < 1/2 by norm_num)]
    rw [← WithTop.coe_mul, ← WithTop.coe_mul, ← WithTop.coe_mul, ← WithTop.coe_add,
      ← WithTop.coe_add, WithTop.coe_eq_coe]
    push_cast
    norm_num [WRel]
  rw [hcode, hspec]
  intro heq
  rw [WithTop.coe_eq_coe] at heq
  have hgt := Real.log_two_gt_d9
  rw [heq] at hgt
  norm_num at hgt

/-- Claim C5, amended: a path recorded tabu during iteration t with tenure
10 (expiry value t + 10, tabusearch.py line 210) is ineligible at
iterations t+1 through t+9 and already eligible again at iteration t+10,
because the eligibility test requires the expiry to be strictly greater
than the current iteration (tabusearch.py line 192). -/
theorem C5_tabu_tenure_window (tl : List (List ℕ × ℕ)) (p : List ℕ) (t : ℕ) :
    (∀ i, t + 1 ≤ i → i ≤ t + 9 → tabuCheck (tabuRecord tl p t 10) p i = true) ∧
    tabuCheck (tabuRecord tl p t 10) p (t + 10) = false := by
  have hlookup : (tabuRecord tl p t 10).lookup p = some (t + 10) := by
    simp [tabuRecord, List.lookup]
  constructor
  · intro i hi1 hi2
    simp only [tabuCheck, hlookup, decide_eq_true_eq]
    omega
  · simp only [tabuCheck, hlookup, decide_eq_false_iff_not]
    omega

/-- Witness for C5_tabu_tenure_window at a concrete instance. -/
theorem C5_tabu_tenure_window_witness :
    tabuCheck (tabuRecord [] [0] 0 10) [0] 1 = true ∧
    tabuCheck (tabuRecord [] [0] 0 10) [0] 10 = false :=
  ⟨(C5_tabu_tenure_window [] [0] 0).1 1 (by norm_num) (by norm_num),
   (C5_tabu_tenure_window [] [0] 0).2⟩

/-- Counterexample to claim C5 as stated: a path recorded tabu at iteration
0 with tenure 10 is claimed ineligible at iteration 10, but the code's test
(expiry strictly greater than the iteration) already readmits it there. -/
theorem C5_counterexample :
    ¬ (tabuCheck (tabuRecord [] [0, 1] 0 10) [0, 1] 10 = true) := by decide

/-- Claim C9: with no network generator set, TabuSearch.optimize returns the
empty path with cost 0.0 while SimulatedAnnealing.optimize,
ParticleSwarmOptimization.optimize and AntColonyOptimization.optimize
return the empty path with cost +infinity. -/
theorem C9_no_generator_guards (g : Network) (s d : ℕ) (w : CostWeights)
    (tenure numIter nbSize : ℕ) (o : RandOracle) (initTemp cooling : ℝ) (iterPerTemp : ℕ)
    (wIn c1 c2 : ℝ) (numParticles : ℕ) (alpha beta rate Q : ℝ) (numAnts : ℕ) :
    tabuOptimize g s d w tenure numIter nbSize none o = ([], 0) ∧
    saOptimize g s d w initTemp cooling numIter iterPerTemp none o = ([], ⊤) ∧
    psoOptimize g s d w wIn c1 c2 numParticles numIter none o = ([], ⊤) ∧
    acoOptimize g s d w alpha beta rate Q numAnts numIter none o = (some [], ⊤) :=
  ⟨rfl, rfl, rfl, rfl⟩

lemma lookup_evaporate (rate : ℝ) (ph : List ((ℕ × ℕ) × ℝ)) (k : ℕ × ℕ) :
    (evaporatePher rate ph).lookup k = (ph.lookup k).map (fun v => v * (1 - rate)) := by
  induction ph with
  | nil => rfl
  | cons kv tl ih =>
      obtain ⟨k1, v1⟩ := kv
      by_cases h : k == k1 <;> simp [evaporatePher, List.lookup, h] <;>
        simpa [evaporatePher] using ih

lemma lookup_depositOnKey_ne (ph : List ((ℕ × ℕ) × ℝ)) (k kd : ℕ × ℕ) (δ : ℝ)
    (h : k ≠ kd) : (depositOnKey ph kd δ).lookup k = ph.lookup k := by
  induction ph with
  | nil => rfl
  | cons kv tl ih =>
      obtain ⟨k1, v1⟩ := kv
      have hmap : depositOnKey ((k1, v1) :: tl) kd δ
          = (if k1 = kd then (k1, v1 + δ) else (k1, v1)) :: depositOnKey tl kd δ := by
        simp only [depositOnKey, List.map_cons]
      rw [hmap]
      by_cases hk : k1 = kd
      · subst hk
        rw [if_pos rfl]
        have hne : (k == k1) = false := by simpa using h
        simp only [List.lookup, hne]
        exact ih
      · rw [if_neg hk]
        by_cases hkk : (k == k1) = true
        · simp only [List.lookup, hkk]
        · simp only [List.lookup, Bool.not_eq_true] at hkk
          simp only [List.lookup, hkk]
          exact ih

lemma lookup_depositFold (δ : ℝ) (k : ℕ × ℕ) :
    ∀ (l : List (ℕ × ℕ)) (ph : List ((ℕ × ℕ) × ℝ)),
      (∀ uv ∈ l, uv ≠ k ∧ (uv.2, uv.1) ≠ k) →
      (l.foldl (fun acc uv => depositOnKey (depositOnKey acc uv δ) (uv.2, uv.1) δ) ph).lookup k
        = ph.lookup k := by
  intro l
  induction l with
  | nil => intro ph _; rfl
  | cons uv tl ih =>
      intro ph h
      obtain ⟨h1, h2⟩ := h uv (List.mem_cons_self _ _)
      simp only [List.foldl_cons]
      rw [ih _ (fun x hx => h x (List.mem_cons_of_mem _ hx))]
      rw [lookup_depositOnKey_ne _ _ _ _ (Ne.symm h2), lookup_depositOnKey_ne _ _ _ _ (Ne.symm h1)]

lemma lookup_depositPath (Q : ℝ) (ph : List ((ℕ × ℕ) × ℝ)) (path : List ℕ)
    (cost : WithTop ℝ) (k : ℕ × ℕ)
    (h : cost ≠ ⊤ → (k ∉ consecPairs path ∧ (k.2, k.1) ∉ consecPairs path)) :
    (depositPath Q ph path cost).lookup k = ph.lookup k := by
  unfold depositPath
  by_cases hc : path = [] ∨ cost = ⊤
  · rw [if_pos hc]
  · rw [if_neg hc]
    push_neg at hc
    obtain ⟨h1, h2⟩ := h hc.2
    apply lookup_depositFold
    intro uv huv
    constructor
    · intro heq; exact h1 (heq ▸ huv)
    · intro heq
      have huv2 : uv = (k.2, k.1) := by
        have e1 : uv.2 = k.1 := congrArg Prod.fst heq
        have e2 : uv.1 = k.2 := congrArg Prod.snd heq
        cases uv; cases k
        simp only at e1 e2
        simp [e1, e2]
      exact h2 (huv2 ▸ huv)

lemma lookup_updatePheromones (rate Q : ℝ) (ph : List ((ℕ × ℕ) × ℝ))
    (pcs : List (List ℕ × WithTop ℝ)) (k : ℕ × ℕ)
    (h : ∀ pc ∈ pcs, pc.2 ≠ ⊤ → (k ∉ consecPairs pc.1 ∧ (k.2, k.1) ∉ consecPairs pc.1)) :
    (updatePheromones rate Q ph pcs).lookup k = (ph.lookup k).map (fun v => v * (1 - rate)) := by
  unfold updatePheromones
  have hfold : ∀ (pcs2 : List (List ℕ × WithTop ℝ)) (ph0 : List ((ℕ × ℕ) × ℝ)),
      (∀ pc ∈ pcs2, pc.2 ≠ ⊤ → (k ∉ consecPairs pc.1 ∧ (k.2, k.1) ∉ consecPairs pc.1)) →
      (pcs2.foldl (fun acc pc => depositPath Q acc pc.1 pc.2) ph0).lookup k = ph0.lookup k := by
    intro pcs2
    induction pcs2 with
    | nil => intro ph0 _; rfl
    | cons pc tl ih =>
        intro ph0 hh
        simp only [List.foldl_cons]
        rw [ih _ (fun x hx => hh x (List.mem_cons_of_mem _ hx))]
        exact lookup_depositPath Q ph0 pc.1 pc.2 k (hh pc (List.mem_cons_self _ _))
  rw [hfold pcs _ h]
  exact lookup_evaporate rate ph k

/-- Claim C7: after one full evaporation-plus-deposit update with
evaporation_rate 1/2, a directed edge lying on no deposited (finite-cost)
ant path of that iteration holds exactly half its previous pheromone. -/
theorem C7_untouched_edge_halved (Q : ℝ) (ph : List ((ℕ × ℕ) × ℝ))
    (pcs : List (List ℕ × WithTop ℝ)) (u v : ℕ)
    (h : ∀ pc ∈ pcs, pc.2 ≠ ⊤ → ((u, v) ∉ consecPairs pc.1 ∧ (v, u) ∉ consecPairs pc.1)) :
    (updatePheromones (1/2) Q ph pcs).lookup (u, v)
      = (ph.lookup (u, v)).map (fun x => x / 2) := by
  rw [lookup_updatePheromones (1/2) Q ph pcs (u, v) h]
  have : (fun v0 : ℝ => v0 * (1 - 1/2)) = fun v0 : ℝ => v0 / 2 := by
    funext x; norm_num; ring
  rw [this]

/-- Witness for C7_untouched_edge_halved at a concrete instance. -/
theorem C7_untouched_edge_halved_witness :
    (updatePheromones (1/2) 100 [((0, 1), (4 : ℝ))] []).lookup (0, 1) = some (2 : ℝ) := by
  have h := C7_untouched_edge_halved 100 [((0, 1), (4 : ℝ))] [] 0 1
    (by intro pc hpc; simp at hpc)
  rw [h]
  norm_num [List.lookup]

lemma pherInit_all_one (g : Network) : ∀ kv ∈ pherInit g, kv.2 = (1 : ℝ) := by
  unfold pherInit
  generalize g.edges = es
  induction es with
  | nil => intro kv h; simp at h
  | cons e tl ih =>
      intro kv h
      simp only [List.foldr_cons] at h
      rcases List.mem_cons.mp h with rfl | h2
      · rfl
      · rcases List.mem_cons.mp h2 with rfl | h3
        · rfl
        · exact ih kv h3

lemma lookup_of_all_one :
    ∀ (l : List ((ℕ × ℕ) × ℝ)) (k : ℕ × ℕ), (∀ kv ∈ l, kv.2 = (1 : ℝ)) →
      (∃ kv ∈ l, kv.1 = k) → l.lookup k = some (1 : ℝ) := by
  intro l
  induction l with
  | nil => intro k _ hex; simp at hex
  | cons kv0 tl ih =>
      intro k hall hex
      obtain ⟨k1, v1⟩ := kv0
      by_cases h : k == k1
      · have hv : v1 = 1 := hall (k1, v1) (List.mem_cons_self _ _)
        simp [List.lookup, h, hv]
      · have : ∃ kv ∈ tl, kv.1 = k := by
          obtain ⟨kv2, hkv2, hk2⟩ := hex
          rcases List.mem_cons.mp hkv2 with rfl | h3
          · exfalso
            apply h
            have hk1 : k1 = k := hk2
            simp [hk1]
          · exact ⟨kv2, h3, hk2⟩
        simp only [List.lookup, h]
        exact ih k (fun x hx => hall x (List.mem_cons_of_mem _ hx)) this

lemma pherInit_key_mem (g : Network) : ∀ e ∈ g.edges,
    (∃ kv ∈ pherInit g, kv.1 = (e.a, e.b)) ∧ (∃ kv ∈ pherInit g, kv.1 = (e.b, e.a)) := by
  unfold pherInit
  generalize g.edges = es
  induction es with
  | nil => intro e h; simp at h
  | cons e0 tl ih =>
      intro e h
      simp only [List.foldr_cons]
      rcases List.mem_cons.mp h with rfl | h2
      · exact ⟨⟨((e.a, e.b), 1), List.mem_cons_self _ _, rfl⟩,
          ⟨((e.b, e.a), 1), List.mem_cons_of_mem _ (List.mem_cons_self _ _), rfl⟩⟩
      · obtain ⟨⟨kv1, hkv1, hk1⟩, ⟨kv2, hkv2, hk2⟩⟩ := ih e h2
        exact ⟨⟨kv1, List.mem_cons_of_mem _ (List.mem_cons_of_mem _ hkv1), hk1⟩,
          ⟨kv2, List.mem_cons_of_mem _ (List.mem_cons_of_mem _ hkv2), hk2⟩⟩

lemma evaporate_pos (rate : ℝ) (h1 : rate < 1) (ph : List ((ℕ × ℕ) × ℝ))
    (hpos : ∀ kv ∈ ph, 0 < kv.2) : ∀ kv ∈ evaporatePher rate ph, 0 < kv.2 := by
  intro kv hkv
  obtain ⟨kv0, hkv0, rfl⟩ := List.mem_map.mp hkv
  exact mul_pos (hpos kv0 hkv0) (by linarith)

lemma depositOnKey_pos (ph : List ((ℕ × ℕ) × ℝ)) (k : ℕ × ℕ) (δ : ℝ) (hδ : 0 ≤ δ)
    (hpos : ∀ kv ∈ ph, 0 < kv.2) : ∀ kv ∈ depositOnKey ph k δ, 0 < kv.2 := by
  intro kv hkv
  obtain ⟨kv0, hkv0, rfl⟩ := List.mem_map.mp hkv
  by_cases h : kv0.1 = k
  · rw [if_pos h]
    exact add_pos_of_pos_of_nonneg (hpos kv0 hkv0) hδ
  · rw [if_neg h]
    exact hpos kv0 hkv0

lemma depositFold_pos (δ : ℝ) (hδ : 0 ≤ δ) :
    ∀ (l : List (ℕ × ℕ)) (ph : List ((ℕ × ℕ) × ℝ)), (∀ kv ∈ ph, 0 < kv.2) →
      ∀ kv ∈ l.foldl (fun acc uv => depositOnKey (depositOnKey acc uv δ) (uv.2, uv.1) δ) ph,
        0 < kv.2 := by
  intro l
  induction l with
  | nil => intro ph h; exact h
  | cons uv tl ih =>
      intro ph h
      simp only [List.foldl_cons]
      exact ih _ (depositOnKey_pos _ _ _ hδ (depositOnKey_pos _ _ _ hδ h))

lemma depositPath_pos (Q : ℝ) (hQ : 0 ≤ Q) (ph : List ((ℕ × ℕ) × ℝ)) (path : List ℕ)
    (cost : WithTop ℝ) (hpos : ∀ kv ∈ ph, 0 < kv.2) :
    ∀ kv ∈ depositPath Q ph path cost, 0 < kv.2 := by
  unfold depositPath
  split
  · exact hpos
  · have hδ : 0 ≤ (if 0 < cost.untop' 0 then Q / cost.untop' 0 else 0) := by
      split
      · exact div_nonneg hQ (le_of_lt (by assumption))
      · exact le_refl 0
    exact depositFold_pos _ hδ _ _ hpos

lemma updatePheromones_pos (rate Q : ℝ) (h1 : rate < 1) (hQ : 0 ≤ Q)
    (ph : List ((ℕ × ℕ) × ℝ)) (pcs : List (List ℕ × WithTop ℝ))
    (hpos : ∀ kv ∈ ph, 0 < kv.2) : ∀ kv ∈ updatePheromones rate Q ph pcs, 0 < kv.2 := by
  unfold updatePheromones
  have hfold : ∀ (pcs2 : List (List ℕ × WithTop ℝ)) (ph0 : List ((ℕ × ℕ) × ℝ)),
      (∀ kv ∈ ph0, 0 < kv.2) →
      ∀ kv ∈ pcs2.foldl (fun acc pc => depositPath Q acc pc.1 pc.2) ph0, 0 < kv.2 := by
    intro pcs2
    induction pcs2 with
    | nil => intro ph0 h; exact h
    | cons pc tl ih =>
        intro ph0 h
        simp only [List.foldl_cons]
        exact ih _ (depositPath_pos Q hQ ph0 pc.1 pc.2 h)
  exact hfold pcs _ (evaporate_pos rate h1 ph hpos)

/-- Claim C10: pheromones start at 1.0 for both orientations of every edge,
and with 0 <= evaporation_rate < 1 and Q >= 0 every stored pheromone value
stays strictly positive after any number of update cycles. -/
theorem C10_pheromone_positive_invariant (g : Network) (rate Q : ℝ)
    (h0 : 0 ≤ rate) (h1 : rate < 1) (hQ : 0 ≤ Q)
    (rounds : List (List (List ℕ × WithTop ℝ))) :
    (∀ e ∈ g.edges, (pherInit g).lookup (e.a, e.b) = some (1 : ℝ) ∧
        (pherInit g).lookup (e.b, e.a) = some (1 : ℝ)) ∧
    (∀ kv ∈ rounds.foldl (fun ph pcs => updatePheromones rate Q ph pcs) (pherInit g),
        0 < kv.2) := by
  constructor
  · intro e he
    obtain ⟨hm1, hm2⟩ := pherInit_key_mem g e he
    exact ⟨lookup_of_all_one _ _ (pherInit_all_one g) hm1,
      lookup_of_all_one _ _ (pherInit_all_one g) hm2⟩
  · have hstart : ∀ kv ∈ pherInit g, 0 < kv.2 := by
      intro kv hkv
      rw [pherInit_all_one g kv hkv]
      norm_num
    have hfold : ∀ (rs : List (List (List ℕ × WithTop ℝ))) (ph0 : List ((ℕ × ℕ) × ℝ)),
        (∀ kv ∈ ph0, 0 < kv.2) →
        ∀ kv ∈ rs.foldl (fun ph pcs => updatePheromones rate Q ph pcs) ph0, 0 < kv.2 := by
      intro rs
      induction rs with
      | nil => intro ph0 h; exact h
      | cons r tl ih =>
          intro ph0 h
          simp only [List.foldl_cons]
          exact ih _ (updatePheromones_pos rate Q h1 hQ ph0 r h)
    exact hfold rounds _ hstart

lemma sameEnds_of_matches {e1 e2 : NEdge} {u v : ℕ}
    (h1 : (e1.a = u ∧ e1.b = v) ∨ (e1.a = v ∧ e1.b = u))
    (h2 : (e2.a = u ∧ e2.b = v) ∨ (e2.a = v ∧ e2.b = u)) : sameEnds e1 e2 := by
  unfold sameEnds
  rcases h1 with ⟨ha, hb⟩ | ⟨ha, hb⟩ <;> rcases h2 with ⟨hc, hd⟩ | ⟨hc, hd⟩ <;>
    simp [ha, hb, hc, hd]

lemma findEdge_update (g g2 : Network) (pre post : List NEdge) (e : NEdge) (b2 : ℚ)
    (hg : g.edges = pre ++ e :: post)
    (hg2 : g2.edges = pre ++ { e with bandwidth := b2 } :: post)
    (hnm : g.edges.Pairwise (fun x y => ¬ sameEnds x y)) (u v : ℕ) :
    ((e.a = u ∧ e.b = v) ∨ (e.a = v ∧ e.b = u) →
        g.findEdge u v = some e ∧ g2.findEdge u v = some { e with bandwidth := b2 }) ∧
    (¬ ((e.a = u ∧ e.b = v) ∨ (e.a = v ∧ e.b = u)) → g2.findEdge u v = g.findEdge u v) := by
  unfold Network.findEdge
  rw [hg, hg2, List.find?_append, List.find?_append]
  constructor
  · intro hm
    have hpre : pre.find? (fun x => (x.a == u && x.b == v) || (x.a == v && x.b == u)) = none := by
      cases hf : pre.find? (fun x => (x.a == u && x.b == v) || (x.a == v && x.b == u)) with
      | none => rfl
      | some x =>
          exfalso
          have hx : x ∈ pre := List.mem_of_find?_eq_some hf
          have hxm : (x.a = u ∧ x.b = v) ∨ (x.a = v ∧ x.b = u) := by
            simpa using List.find?_some hf
          rw [hg] at hnm
          obtain ⟨-, -, hcross⟩ := List.pairwise_append.mp hnm
          exact hcross x hx e (List.mem_cons_self _ _) (sameEnds_of_matches hxm hm)
    rw [hpre]
    have hPe : ((e.a == u && e.b == v) || (e.a == v && e.b == u)) = true := by simpa using hm
    constructor
    · simp [List.find?_cons_of_pos, hPe]
    · simp [List.find?_cons_of_pos, hPe]
  · intro hm
    have hPe : ((e.a == u && e.b == v) || (e.a == v && e.b == u)) = false := by
      simpa using hm
    cases hf : pre.find? (fun x => (x.a == u && x.b == v) || (x.a == v && x.b == u)) with
    | some x => simp [hf]
    | none =>
        simp only [hf, Option.or]
        rw [List.find?_cons_of_neg _ (by simpa using hPe), List.find?_cons_of_neg _ (by simpa using hPe)]

lemma hasEdge_update (g g2 : Network) (pre post : List NEdge) (e : NEdge) (b2 : ℚ)
    (hg : g.edges = pre ++ e :: post)
    (hg2 : g2.edges = pre ++ { e with bandwidth := b2 } :: post)
    (hnm : g.edges.Pairwise (fun x y => ¬ sameEnds x y)) (u v : ℕ) :
    g2.hasEdge u v = g.hasEdge u v := by
  obtain ⟨h1, h2⟩ := findEdge_update g g2 pre post e b2 hg hg2 hnm u v
  by_cases hm : (e.a = u ∧ e.b = v) ∨ (e.a = v ∧ e.b = u)
  · obtain ⟨ha, hb⟩ := h1 hm
    simp [Network.hasEdge, ha, hb]
  · simp [Network.hasEdge, h2 hm]

/-- Claim C8: raising the bandwidth of an edge used by a valid path, with
every other attribute fixed, strictly decreases the path's resource_cost. -/
theorem C8_bandwidth_strictly_decreases_resource (g g2 : Network) (pre post : List NEdge)
    (e : NEdge) (b2 : ℚ)
    (hg : g.edges = pre ++ e :: post)
    (hg2 : g2.edges = pre ++ { e with bandwidth := b2 } :: post)
    (hpd : g2.procDelay = g.procDelay) (hnr : g2.nodeRel = g.nodeRel)
    (hns : g2.nodes = g.nodes)
    (hWF : WF g) (hb : e.bandwidth < b2)
    (s d : ℕ) (p : List ℕ) (hp : validPath g s d p)
    (huse : (e.a, e.b) ∈ consecPairs p ∨ (e.b, e.a) ∈ consecPairs p) :
    (get_path_metrics g2 p).resource_cost < (get_path_metrics g p).resource_cost := by
  have hOk : structOk g p := ⟨hp.1, hp.2.2.2.2⟩
  have hOk2 : structOk g2 p := by
    refine ⟨hp.1, fun q hq => ?_⟩
    rw [hasEdge_update g g2 pre post e b2 hg hg2 hWF.no_multi q.1 q.2]
    exact hp.2.2.2.2 q hq
  have hmem_e : e ∈ g.edges := by
    rw [hg]; exact List.mem_append.mpr (Or.inr (List.mem_cons_self _ _))
  have hepos : 0 < e.bandwidth := hWF.edge_bw e hmem_e
  have hterm_lt : ∀ q : ℕ × ℕ, ((e.a = q.1 ∧ e.b = q.2) ∨ (e.a = q.2 ∧ e.b = q.1)) →
      1000 / edgeBandwidthOf g2 q.1 q.2 < 1000 / edgeBandwidthOf g q.1 q.2 := by
    intro q hmatch
    obtain ⟨h1, -⟩ := findEdge_update g g2 pre post e b2 hg hg2 hWF.no_multi q.1 q.2
    obtain ⟨hfg, hfg2⟩ := h1 hmatch
    rw [edgeBandwidthOf_eq g hfg, edgeBandwidthOf_eq g2 hfg2]
    exact div_lt_div_of_pos_left (by norm_num) hepos hb
  rw [metrics_resource_eq g p hOk, metrics_resource_eq g2 p hOk2, WithTop.coe_lt_coe]
  unfold resourceSum
  apply List.sum_lt_sum
  · intro q hq
    by_cases hmatch : (e.a = q.1 ∧ e.b = q.2) ∨ (e.a = q.2 ∧ e.b = q.1)
    · exact le_of_lt (hterm_lt q hmatch)
    · obtain ⟨-, h2⟩ := findEdge_update g g2 pre post e b2 hg hg2 hWF.no_multi q.1 q.2
      unfold edgeBandwidthOf
      rw [h2 hmatch]
  · rcases huse with hq | hq
    · exact ⟨(e.a, e.b), hq, hterm_lt (e.a, e.b) (Or.inl ⟨rfl, rfl⟩)⟩
    · exact ⟨(e.b, e.a), hq, hterm_lt (e.b, e.a) (Or.inr ⟨rfl, rfl⟩)⟩

lemma WF_G3 : WF G3 := by
  refine ⟨?_, ?_, ?_, ?_, ?_, ?_, ?_⟩
  · intro e he; rw [G3, List.mem_singleton] at he; subst he; norm_num
  · intro e he; rw [G3, List.mem_singleton] at he; subst he; norm_num
  · intro e he; rw [G3, List.mem_singleton] at he; subst he; norm_num
  · intro n; constructor <;> norm_num [G3]
  · intro n; norm_num [G3]
  · exact List.pairwise_singleton _ _
  · intro e he; rw [G3, List.mem_singleton] at he; subst he; norm_num

/-- Witness for C8_bandwidth_strictly_decreases_resource: raising the
bandwidth of edge 0-1 from 100 to 200 strictly lowers the resource cost of
the path [0, 1]. -/
theorem C8_bandwidth_strictly_decreases_resource_witness :
    (get_path_metrics G3bw [0, 1]).resource_cost < (get_path_metrics G3 [0, 1]).resource_cost :=
  C8_bandwidth_strictly_decreases_resource G3 G3bw [] [] ⟨0, 1, 100, 1, 1⟩ 200
    rfl rfl rfl rfl rfl WF_G3 (by norm_num) 0 1 [0, 1] (by decide) (Or.inl (by decide))

/-- Witness for C10_pheromone_positive_invariant at a concrete instance. -/
theorem C10_pheromone_positive_invariant_witness :
    (∀ e ∈ G2.edges, (pherInit G2).lookup (e.a, e.b) = some (1 : ℝ) ∧
        (pherInit G2).lookup (e.b, e.a) = some (1 : ℝ)) ∧
    (∀ kv ∈ ([] : List (List (List ℕ × WithTop ℝ))).foldl
        (fun ph pcs => updatePheromones (1/2) 100 ph pcs) (pherInit G2), 0 < kv.2) :=
  C10_pheromone_positive_invariant G2 (1/2) 100 (by norm_num) (by norm_num) (by norm_num) []

lemma tabuGenNeighbor_eval : tabuGenNeighbor G2 0 2 O1 0 [0, 2] = ([0, 1], 3) := by
  unfold tabuGenNeighbor
  norm_num [O1]
  decide

lemma cost_G2_02_top : calculate_total_cost G2 [0, 2] W1 = ⊤ :=
  cost_top_of_not_structOk G2 W1 [0, 2] (by norm_num [W1]) (by decide)

lemma cost_G2_01_ne_top : calculate_total_cost G2 [0, 1] W1 ≠ ⊤ :=
  cost_ne_top_of_structOk G2 W1 [0, 1] WF_G2 (by decide)

lemma cost_G2_01_lt_top : calculate_total_cost G2 [0, 1] W1 < ⊤ :=
  WithTop.lt_top_iff_ne_top.mpr cost_G2_01_ne_top

lemma tabu_candStep_eval : tabuCandStep G2 0 2 (some G2) W1 [] ⊤ 0 [0, 2] O1 ⟨0, none, ⊤⟩
    = ⟨3, some [0, 1], calculate_total_cost G2 [0, 1] W1⟩ := by
  simp [tabuCandStep, tabuGenNeighbor_eval, calcCostVia, tabuCheck, List.lookup,
    cost_G2_01_lt_top]

lemma tabu_candLoop_eval : tabuCandLoop G2 0 2 (some G2) W1 [] ⊤ 0 [0, 2] O1 1 ⟨0, none, ⊤⟩
    = ⟨3, some [0, 1], calculate_total_cost G2 [0, 1] W1⟩ := by
  have h1 : List.range 1 = [0] := rfl
  simp only [tabuCandLoop, h1, List.foldl_cons, List.foldl_nil]
  exact tabu_candStep_eval

lemma tabu_iter_eval : tabuIter G2 0 2 (some G2) W1 10 1 O1 ⟨0, [0, 2], ⊤, [0, 2], ⊤, []⟩ 0
    = ⟨3, [0, 1], calculate_total_cost G2 [0, 1] W1, [0, 1],
        calculate_total_cost G2 [0, 1] W1, [([0, 1], 10)]⟩ := by
  simp [tabuIter, tabu_candLoop_eval, tabuRecord, cost_G2_01_lt_top]

lemma tabu_run_eval : tabuOptimize G2 0 2 W1 10 1 1 (some G2) O1
    = ([0, 1], calculate_total_cost G2 [0, 1] W1) := by
  have hsp : shortestPath G2 0 2 = none := by decide
  have h1 : List.range 1 = [0] := rfl
  simp only [tabuOptimize, hsp, Option.getD, h1, List.foldl_cons, List.foldl_nil,
    calcCostVia, cost_G2_02_top]
  rw [tabu_iter_eval]

/-- Claim C1 (code bug witness run): on the disconnected instance G2
(source 0, destination 2 unreachable), TabuSearch.optimize returns the
nonempty path [0, 1], which is not a valid source-to-destination path (its
last node is 1, not the destination 2). -/
theorem C1_tabu_returns_invalid_nonempty_path :
    (tabuOptimize G2 0 2 W1 10 1 1 (some G2) O1).1 = [0, 1] ∧
    (tabuOptimize G2 0 2 W1 10 1 1 (some G2) O1).1 ≠ [] ∧
    ¬ validPath G2 0 2 (tabuOptimize G2 0 2 W1 10 1 1 (some G2) O1).1 := by
  rw [tabu_run_eval]
  exact ⟨rfl, by decide, by decide⟩

/-- Claim C4 (code bug witness run): on the disconnected instance G2 the
claimed graceful degradation to ([], +infinity) does not happen:
TabuSearch.optimize returns a nonempty path with a finite cost. -/
theorem C4_tabu_disconnected_not_graceful :
    (tabuOptimize G2 0 2 W1 10 1 1 (some G2) O1).1 ≠ [] ∧
    (tabuOptimize G2 0 2 W1 10 1 1 (some G2) O1).2 ≠ ⊤ := by
  rw [tabu_run_eval]
  exact ⟨by decide, cost_G2_01_ne_top⟩

end NetOpt
